import Mathlib

/-!
Verification of the admonition block-processor
(`src/markdown/extensions/admonition.py`) of the `markdown` repository.

The Python source is shallowly embedded: XML tree elements become the
inductive `Element`; Python strings are Lean `String`s, with the string
primitives used by the source (`startswith`, slicing, `lower`, `split`,
`find`) modelled directly on the underlying character lists; the mutable
processor attributes `current_sibling` / `content_indent` become the
explicit state record `RState` threaded through `parse_content`, `test`
and `run`; calls into the host parser (`parser.parseBlocks`,
`parser.parseChunk`) are reified as an `Effect` trace.
-/

namespace Admonition

/-- An `xml.etree.ElementTree` element: tag, attribute list, direct text
content (`elem.text`, `""` standing for Python's `None`/`''`), children. -/
inductive Element where
  | mk (tag : String) (attrs : List (String × String)) (text : String)
      (children : List Element)

def Element.tag : Element → String
  | .mk t _ _ _ => t

def Element.attrs : Element → List (String × String)
  | .mk _ a _ _ => a

def Element.text : Element → String
  | .mk _ _ x _ => x

def Element.children : Element → List Element
  | .mk _ _ _ c => c

/-- `elem.get(key, '')`. -/
def Element.getAttr (e : Element) (key : String) : String :=
  match e.attrs.find? (fun p => p.1 == key) with
  | some p => p.2
  | none => ""

/-- `' ' * n`. -/
def spacesStr (n : Nat) : String :=
  ⟨List.replicate n ' '⟩

/-- Python `s.startswith(pre)`. -/
def sStartsWith (s pre : String) : Bool :=
  pre.data.isPrefixOf s.data

/-- Python `s[n:]` (by code points). -/
def sDrop (s : String) (n : Nat) : String :=
  ⟨s.data.drop n⟩

/-- Python `s[:n]` (by code points). -/
def sTake (s : String) (n : Nat) : String :=
  ⟨s.data.take n⟩

/-- Python `s.lower()` (character-wise). -/
def lowerStr (s : String) : String :=
  ⟨s.data.map Char.toLower⟩

/-- Python `text.split('\n')`. -/
def splitNL : List Char → List (List Char)
  | [] => [[]]
  | c :: r =>
    if c = '\n' then [] :: splitNL r
    else
      match splitNL r with
      | [] => [[c]]
      | h :: t => (c :: h) :: t

/-- Python `'\n'.join(lines)`. -/
def joinNL (lines : List (List Char)) : String :=
  ⟨List.intercalate ['\n'] lines⟩

/-- Modelled from the spec: the Indent Splitter (`Blockprocessor.detab` of the
host, whose module is not under `src/`).  Given a block and an indent width it
splits off the leading run of lines that are either indented at least that far
(those are dedented by that many columns) or blank, and returns the remaining
trailing lines verbatim as the tail (spec §4.2, §6). -/
def detab (text : String) (length : Nat) : String × String :=
  let lines := splitNL text.data
  let indented := fun l : List Char => (List.replicate length ' ').isPrefixOf l
  let keep := fun l : List Char => indented l || l.all (fun c => c.isWhitespace)
  let consumed := lines.takeWhile keep
  (joinNL (consumed.map (fun l => if indented l then l.drop length else l)),
   joinNL (lines.drop consumed.length))

/-- Modelled from the spec: the host helper returning a node's
most-recently-added child, or none (spec §6). -/
def lastChild (e : Element) : Option Element :=
  e.children.getLast?

/-- `cs` contains `sub` as a contiguous run (Python `cs.find(sub) != -1`). -/
def listContains (cs sub : List Char) : Bool :=
  match cs with
  | [] => sub.isEmpty
  | c :: rest => sub.isPrefixOf (c :: rest) || listContains rest sub

/-- Python `s.find(sub) != -1`. -/
def containsSub (s sub : String) : Bool :=
  listContains s.data sub.data

/-! ## The marker regex

`RE = re.compile(r'(?:^|\n)!!! ?([\w\-]+(?: +[\w\-]+)*)(?: +"(.*?)")? *(?:\n|$)')`

The pattern is modelled directly: `\w` is taken as ASCII word characters
(letters, digits, underscore).  Matching is leftmost (smallest start
position, the start anchored at offset 0 or at a newline), with the
backtracking of the concrete pattern resolved: the token list
`[\w\-]+(?: +[\w\-]+)*` is the maximal run of word/hyphen/space characters
that begins and ends with a word/hyphen character (reducing it never helps,
since the tail of the pattern cannot start with a word character), and the
lazy title `(.*?)"` stops at the first closing quote that is followed by
only spaces up to the line end. -/

def isWordChar (c : Char) : Bool :=
  c.isAlphanum || c == '_'

def isClassChar (c : Char) : Bool :=
  isWordChar c || c == '-'

/-- The result of `RE.search`: `m.start()`, `m.end()`, `m.group(1)`,
`m.group(2)`. -/
structure MatchRes where
  start : Nat
  stop : Nat
  group1 : String
  group2 : Option String
deriving DecidableEq, Repr

/-- `[\w\-]+(?: +[\w\-]+)*` at the head of `cs`: the group-1 text and the
rest of the input. -/
def tokensPart (cs : List Char) : Option (List Char × List Char) :=
  match cs with
  | [] => none
  | c :: _ =>
    if isClassChar c then
      let p := cs.span (fun x => isClassChar x || x == ' ')
      let g1 := (p.1.reverse.dropWhile (fun x => x == ' ')).reverse
      some (g1, p.1.drop g1.length ++ p.2)
    else none

/-- After an opening `"`: the lazy `(.*?)"` followed by ` *(?:\n|$)` — the
title runs to the first `"` that is followed by only spaces up to the end of
the line; `.` does not cross a newline. -/
def scanClose : List Char → List Char → Option (List Char × List Char)
  | [], _ => none
  | c :: r, acc =>
    if c == '\n' then none
    else if c == '"' then
      match (r.span (fun x => x == ' ')).2 with
      | [] => some (acc.reverse, [])
      | x :: r3 =>
        if x == '\n' then some (acc.reverse, r3)
        else scanClose r ('"' :: acc)
    else scanClose r (c :: acc)

/-- `(?: +"(.*?)")? *(?:\n|$)` : the optional title group, trailing spaces
and the line terminator.  Returns the title (if the group matched) and the
input remaining after the whole match. -/
def matchTail (cs : List Char) : Option (Option (List Char) × List Char) :=
  let sp := cs.span (fun x => x == ' ')
  let tryTitle : Option (List Char × List Char) :=
    if sp.1.isEmpty then none
    else
      match sp.2 with
      | c :: r => if c == '"' then scanClose r [] else none
      | [] => none
  match tryTitle with
  | some (t, rest) => some (some t, rest)
  | none =>
    match sp.2 with
    | [] => some (none, [])
    | c :: r => if c == '\n' then some (none, r) else none

/-- The token-and-tail part of the pattern, after `!!!` and the optional
space. -/
def bodyCore (cs2 : List Char) : Option (List Char × Option (List Char) × List Char) :=
  match tokensPart cs2 with
  | none => none
  | some (g1, rest) =>
    match matchTail rest with
    | none => none
    | some (t, rest2) => some (g1, t, rest2)

/-- The pattern body after the `(?:^|\n)` anchor: `!!! ?` then tokens then
tail.  The optional space is tried greedily, as the engine does. -/
def matchBody (cs : List Char) : Option (List Char × Option (List Char) × List Char) :=
  match cs with
  | '!' :: '!' :: '!' :: cs1 =>
    (match cs1 with
     | ' ' :: cs2 => (bodyCore cs2).orElse (fun _ => bodyCore cs1)
     | _ => bodyCore cs1)
  | _ => none

/-- Try the `\n` anchor at every later position, left to right. -/
def searchFrom : List Char → Nat → Nat → Option MatchRes
  | [], _, _ => none
  | c :: r, i, total =>
    if c == '\n' then
      match matchBody r with
      | some (g1, t, rest) =>
        some ⟨i, total - rest.length, ⟨g1⟩, t.map (fun l => (⟨l⟩ : String))⟩
      | none => searchFrom r (i + 1) total
    else searchFrom r (i + 1) total

/-- `RE.search(s)`: the `^` anchor at position 0 first, then a `\n` anchor at
each position in order. -/
def RE_search (s : String) : Option MatchRes :=
  match matchBody s.data with
  | some (g1, t, rest) =>
    some ⟨0, s.data.length - rest.length, ⟨g1⟩, t.map (fun l => (⟨l⟩ : String))⟩
  | none => searchFrom s.data 0 s.data.length

/-- `RE_SPACES.sub(' ', s)` with `RE_SPACES = re.compile('  +')`: every
maximal run of two or more spaces is replaced by a single space.  The flag
records whether the previous output character was a space of such a run. -/
def collapseAux : Bool → List Char → List Char
  | _, [] => []
  | prev, c :: r =>
    if c == ' ' then
      if prev then collapseAux true r else ' ' :: collapseAux true r
    else c :: collapseAux false r

/-- `RE_SPACES.sub(' ', s)`. -/
def RE_SPACES_sub (s : String) : String :=
  ⟨collapseAux false s.data⟩

/-- Python `s.capitalize()`: first character uppercased, the rest
lowercased. -/
def pyCapitalize (s : String) : String :=
  match s.data with
  | [] => ""
  | c :: r => ⟨c.toUpper :: r.map Char.toLower⟩

def CLASSNAME : String := "admonition"

def CLASSNAME_TITLE : String := "admonition-title"

/-- `AdmonitionProcessor.get_class_and_title` (lines 154-166): lowercase and
space-collapse group 1; no title group means the capitalized first class
token, an explicit `""` title means no title at all. -/
def get_class_and_title (m : MatchRes) : String × Option String :=
  let klass := RE_SPACES_sub (lowerStr m.group1)
  let title : Option String :=
    match m.group2 with
    | none => some (pyCapitalize ⟨klass.data.takeWhile (fun c => c != ' ')⟩)
    | some t => if t == "" then none else some t
  (klass, title)

/-- The mutable processor state (`self.current_sibling`,
`self.content_indent`), initialized in `__init__` (lines 43-49). -/
structure RState where
  current_sibling : Option Element
  content_indent : Nat

theorem sizeOf_lt_of_lastChild {e c : Element} (h : lastChild e = some c) :
    sizeOf c < sizeOf e := by
  obtain ⟨t, a, x, ch⟩ := e
  have hm : c ∈ ch := by
    simpa [lastChild, Element.children] using List.mem_of_mem_getLast? h
  have := List.sizeOf_lt_of_mem hm
  simp only [Element.mk.sizeOf_spec]
  omega

def listTags : List String := ["ul", "ol", "dl"]

/-- The `while last_child:` loop of `parse_content` (lines 79-96): while the
block is indented at least two tab widths and the current last child is a
list container, descend to the list's last item, strip one tab width from
the block and add it to the accumulated indent.  The two non-recursive
branches are the loop iterations in which `lastChild` comes up empty (the
Python loop then sets `last_child = None` and exits on the next test). -/
def descend (tab : Nat) (sibling lc : Element) (block : String) (indent : Nat) :
    Option Element × String × Nat :=
  if sStartsWith block (spacesStr (tab * 2)) && listTags.contains lc.tag then
    match h : lastChild lc with
    | none => (none, sDrop block tab, indent + tab)
    | some sib' =>
      match h' : lastChild sib' with
      | none => (some sib', sDrop block tab, indent + tab)
      | some lc' => descend tab sib' lc' (sDrop block tab) (indent + tab)
  else (some sibling, block, indent)
termination_by sizeOf lc
decreasing_by
  exact Nat.lt_trans (sizeOf_lt_of_lastChild h') (sizeOf_lt_of_lastChild h)

/-- `AdmonitionProcessor.parse_content` (lines 51-107), with the mutable
attributes made explicit: returns the new state and the triple
`(sibling, block, the_rest)`. -/
def parse_content (tab : Nat) (st : RState) (parent : Element) (block : String) :
    RState × (Option Element × String × String) :=
  let old_block := block
  match st.current_sibling with
  | some sib =>
    -- "We already acquired the block via test" (lines 63-68)
    let p := detab block st.content_indent
    (⟨none, 0⟩, (some sib, p.1, p.2))
  | none =>
    match lastChild parent with
    | none => (st, (none, block, ""))
    | some sib0 =>
      if !containsSub (sib0.getAttr "class") CLASSNAME then
        (st, (none, block, ""))
      else
        let r :=
          match lastChild sib0 with
          | none => (some sib0, block, 0)
          | some lc => descend tab sib0 lc block 0
        let sibling1 := if !sStartsWith r.2.1 (spacesStr tab) then none else r.1
        match sibling1 with
        | none => (st, (none, r.2.1, ""))
        | some s =>
          let indent := r.2.2 + tab
          let p := detab old_block indent
          (⟨some s, indent⟩, (some s, p.1, p.2))

/-- `AdmonitionProcessor.test` (lines 109-114). -/
def test (tab : Nat) (st : RState) (parent : Element) (block : String) :
    RState × Bool :=
  if (RE_search block).isSome then (st, true)
  else
    let r := parse_content tab st parent block
    (r.1, r.2.1.isSome)

/-- A reified call into the host parser: `self.parser.parseBlocks(parent,
[text])` resp. `self.parser.parseChunk(target, text)`. -/
inductive Effect where
  | parseBlocks (text : String)
  | parseChunk (target : Element) (text : String)

/-- The observable result of one `run` call: the final state, the updated
parent, the element that received the block's content (the new `div` in the
marker case, the — possibly paragraph-wrapped — resolved sibling in the
continuation case), the host-parser calls in order, and the remaining
pending-block queue. -/
structure RunOut where
  state : RState
  parent : Element
  target : Element
  effects : List Effect
  blocks : List String

/-- `AdmonitionProcessor.run` (lines 116-152).  `blocks.pop(0)` on an empty
queue, and `sibling.tag` on a `None` sibling, would raise in Python; both
are `none` here.  In the continuation case the Python code mutates the
resolved sibling in place deep inside the tree; with value semantics the
updated node is returned as `target` (and `parent` is returned unchanged),
while in the marker case the new `div` is appended to `parent`. -/
def run (tab : Nat) (st : RState) (parent : Element) (blocks : List String) :
    Option RunOut :=
  match blocks with
  | [] => none
  | block :: rest =>
    match RE_search block with
    | some m =>
      let effects0 := if 0 < m.start then [Effect.parseBlocks (sTake block m.start)] else []
      let p := detab (sDrop block m.stop) tab
      let kt := get_class_and_title m
      let div : Element :=
        Element.mk "div" [("class", CLASSNAME ++ " " ++ kt.1)] ""
          (match kt.2 with
           | some t =>
             if t == "" then []
             else [Element.mk "p" [("class", CLASSNAME_TITLE)] t []]
           | none => [])
      some
        { state := st
          parent := Element.mk parent.tag parent.attrs parent.text (parent.children ++ [div])
          target := div
          effects := effects0 ++ [Effect.parseChunk div p.1]
          blocks := if p.2 == "" then rest else p.2 :: rest }
    | none =>
      let r := parse_content tab st parent block
      match r.2.1 with
      | none => none
      | some sibling =>
        let sibling' :=
          if (sibling.tag == "li" || sibling.tag == "dd") && sibling.text != "" then
            Element.mk sibling.tag sibling.attrs ""
              (sibling.children ++ [Element.mk "p" [] sibling.text []])
          else sibling
        some
          { state := r.1
            parent := parent
            target := sibling'
            effects := [Effect.parseChunk sibling' r.2.2.1]
            blocks := if r.2.2.2 == "" then rest else r.2.2.2 :: rest }

/-- The result of one host-driven step: the state after it, whether this
processor accepted the block, and the `run` result when it did. -/
structure StepRes where
  state : RState
  accepted : Bool
  runOut : Option RunOut

/-- Modelled from the spec: the host block-processing loop (spec §5, §6,
`BlockParser`, not under `src/`) drives one block through the handler's
acceptance `test` and, on acceptance, immediately invokes the same
handler's `run` on the queue still headed by that block. -/
def hostStep (tab : Nat) (st : RState) (parent : Element) (blocks : List String) :
    Option StepRes :=
  match blocks with
  | [] => none
  | block :: rest =>
    let t := test tab st parent block
    if t.2 then
      (run tab t.1 parent (block :: rest)).map (fun o => ⟨o.state, true, some o⟩)
    else some ⟨t.1, false, none⟩

/-! ## Basic lemmas -/

theorem descend_neg {tab : Nat} {sibling lc : Element} {block : String} {indent : Nat}
    (h1 : (sStartsWith block (spacesStr (tab * 2)) && listTags.contains lc.tag) = false) :
    descend tab sibling lc block indent = (some sibling, block, indent) := by
  rw [descend.eq_def, h1]
  simp

theorem descend_none {tab : Nat} {sibling lc : Element} {block : String} {indent : Nat}
    (h1 : (sStartsWith block (spacesStr (tab * 2)) && listTags.contains lc.tag) = true)
    (h2 : lastChild lc = none) :
    descend tab sibling lc block indent = (none, sDrop block tab, indent + tab) := by
  rw [descend.eq_def, h1]
  simp only [if_true]
  split
  · rfl
  · next sib' heq => rw [h2] at heq; exact Option.noConfusion heq

theorem descend_stop {tab : Nat} {sibling lc sib' : Element} {block : String} {indent : Nat}
    (h1 : (sStartsWith block (spacesStr (tab * 2)) && listTags.contains lc.tag) = true)
    (h2 : lastChild lc = some sib') (h3 : lastChild sib' = none) :
    descend tab sibling lc block indent = (some sib', sDrop block tab, indent + tab) := by
  rw [descend.eq_def, h1]
  simp only [if_true]
  split
  · next heq => rw [h2] at heq; exact Option.noConfusion heq
  · next s heq =>
    rw [h2] at heq
    obtain rfl : sib' = s := by injection heq
    split
    · rfl
    · next l heq2 => rw [h3] at heq2; exact Option.noConfusion heq2

theorem descend_step {tab : Nat} {sibling lc sib' lc' : Element} {block : String} {indent : Nat}
    (h1 : (sStartsWith block (spacesStr (tab * 2)) && listTags.contains lc.tag) = true)
    (h2 : lastChild lc = some sib') (h3 : lastChild sib' = some lc') :
    descend tab sibling lc block indent =
      descend tab sib' lc' (sDrop block tab) (indent + tab) := by
  rw [descend.eq_def, h1]
  simp only [if_true]
  split
  · next heq => rw [h2] at heq; exact Option.noConfusion heq
  · next s heq =>
    rw [h2] at heq
    obtain rfl : sib' = s := by injection heq
    split
    · next heq2 => rw [h3] at heq2; exact Option.noConfusion heq2
    · next l heq2 =>
      rw [h3] at heq2
      obtain rfl : lc' = l := by injection heq2
      rfl

/-- C10: after `!!!` at most one optional space precedes the first class
token — `!!!note` is recognized exactly like `!!! note`, a line with two
spaces after `!!!` never matches, a quoted title must be separated from the
tokens by at least one space, and with that space it is captured. -/
theorem marker_space_optional :
    (∀ rest : List Char, matchBody ('!' :: '!' :: '!' :: ' ' :: ' ' :: rest) = none) ∧
    RE_search "!!!note" = some ⟨0, 7, "note", none⟩ ∧
    RE_search "!!! note" = some ⟨0, 8, "note", none⟩ ∧
    RE_search "!!! note\"Title\"" = none ∧
    RE_search "!!! note \"Title\"" = some ⟨0, 16, "note", some "Title"⟩ := by
  have hsp : isClassChar ' ' = false := by decide
  refine ⟨fun rest => ?_, by decide, by decide, by decide, by decide⟩
  simp [matchBody, bodyCore, tokensPart, hsp, Option.orElse]

theorem parse_content_state (tab : Nat) (st : RState) (parent : Element) (block : String)
    (h0 : st.current_sibling = none) :
    (parse_content tab st parent block).1.current_sibling =
      (parse_content tab st parent block).2.1 ∧
    ((parse_content tab st parent block).2.1 = none →
      (parse_content tab st parent block).1 = st) := by
  obtain ⟨cs, ci⟩ := st
  obtain rfl : cs = none := h0
  unfold parse_content
  cases hlc : lastChild parent with
  | none => simp
  | some sib0 =>
    by_cases hct : containsSub (sib0.getAttr "class") CLASSNAME
    · simp only [hct, Bool.not_true, Bool.false_eq_true, if_false]
      by_cases hss : sStartsWith
          (match lastChild sib0 with
           | none => (some sib0, block, 0)
           | some lc => descend tab sib0 lc block 0).2.1 (spacesStr tab)
      · simp only [hss, Bool.not_true, Bool.false_eq_true, if_false]
        split <;> simp
      · simp only [Bool.not_eq_true] at hss
        simp only [hss, Bool.not_false, if_true]
        simp
    · simp only [Bool.not_eq_true] at hct
      simp [hct]

theorem sStartsWith_mono {s : String} {a b : Nat} (hab : a ≤ b)
    (h : sStartsWith s (spacesStr b) = true) : sStartsWith s (spacesStr a) = true := by
  rw [sStartsWith, List.isPrefixOf_iff_prefix] at h ⊢
  refine List.IsPrefix.trans ?_ h
  show (List.replicate a ' ') <+: (List.replicate b ' ')
  rw [show List.replicate a ' ' = List.take a (List.replicate b ' ') by
    rw [List.take_replicate, Nat.min_eq_left hab]]
  exact List.take_prefix _ _

theorem parse_content_underindent (tab : Nat) (st : RState) (parent : Element) (block : String)
    (h0 : st.current_sibling = none)
    (hind : sStartsWith block (spacesStr tab) = false) :
    parse_content tab st parent block = (st, (none, block, "")) := by
  obtain ⟨cs, ci⟩ := st
  obtain rfl : cs = none := h0
  have h2t : sStartsWith block (spacesStr (tab * 2)) = false := by
    cases h2 : sStartsWith block (spacesStr (tab * 2)) with
    | false => rfl
    | true =>
      rw [sStartsWith_mono (by omega) h2] at hind
      exact Bool.noConfusion hind
  unfold parse_content
  cases hlc : lastChild parent with
  | none => simp
  | some sib0 =>
    by_cases hct : containsSub (sib0.getAttr "class") CLASSNAME
    · cases hlc0 : lastChild sib0 with
      | none => simp [hct, hind, hlc0]
      | some lc =>
        have hd : descend tab sib0 lc block 0 = (some sib0, block, 0) :=
          descend_neg (by simp [h2t])
        simp [hct, hind, hlc0, hd]
    · simp only [Bool.not_eq_true] at hct
      simp [hct]

/-- C8 -/
theorem test_accept_iff (tab : Nat) (st : RState) (parent : Element) (block : String)
    (h0 : st.current_sibling = none) :
    ((test tab st parent block).2 = ((RE_search block).isSome ||
      (parse_content tab st parent block).2.1.isSome)) ∧
    ((test tab st parent block).2 = false → (test tab st parent block).1 = st) ∧
    (sStartsWith block (spacesStr tab) = false → RE_search block = none →
      test tab st parent block = (st, false)) := by
  refine ⟨?_, ?_, ?_⟩
  · unfold test
    cases hre : RE_search block <;> simp [hre]
  · intro hf
    unfold test at hf ⊢
    cases hre : RE_search block with
    | some m => simp [hre] at hf
    | none =>
      simp only [hre, Option.isSome_none, Bool.false_eq_true, if_false] at hf ⊢
      exact (parse_content_state tab st parent block h0).2 (Option.not_isSome_iff_eq_none.mp
        (by simp [hf]))
  · intro hind hre
    unfold test
    rw [hre, parse_content_underindent tab st parent block h0 hind]
    simp

theorem test_accept_iff_witness :
    test 4 ⟨none, 0⟩
      (Element.mk "div" [] "" [Element.mk "div" [("class", "admonition note")] "" []])
      "  x" = (⟨none, 0⟩, false) :=
  (test_accept_iff 4 ⟨none, 0⟩
    (Element.mk "div" [] "" [Element.mk "div" [("class", "admonition note")] "" []])
    "  x" rfl).2.2 (by decide) (by decide)

/-- C2 -/
theorem resolver_one_shot (tab : Nat) (st : RState) (parent : Element)
    (blocks : List String) (res : StepRes)
    (h0 : st.current_sibling = none)
    (h : hostStep tab st parent blocks = some res) :
    res.state.current_sibling = none ∧ (res.accepted = false → res.state = st) := by
  match blocks with
  | [] => exact Option.noConfusion h
  | block :: rest =>
    cases hre : RE_search block with
    | some m =>
      have ht : test tab st parent block = (st, true) := by simp [test, hre]
      simp only [hostStep, ht, if_true, run, hre, Option.map_some] at h
      injection h with h
      subst h
      exact ⟨h0, fun _ => rfl⟩
    | none =>
      have hps := parse_content_state tab st parent block h0
      cases hs : (parse_content tab st parent block).2.1 with
      | none =>
        have ht : test tab st parent block = (st, false) := by
          simp [test, hre, hs, hps.2 hs]
        simp only [hostStep, ht, Bool.false_eq_true, if_false] at h
        injection h with h
        subst h
        exact ⟨h0, fun _ => rfl⟩
      | some s =>
        have ht1 : test tab st parent block = ((parse_content tab st parent block).1, true) := by
          simp [test, hre, hs]
        have hcs : (parse_content tab st parent block).1.current_sibling = some s := by
          rw [hps.1, hs]
        simp only [hostStep, ht1, if_true] at h
        set st1 := (parse_content tab st parent block).1 with hst1
        clear_value st1
        obtain ⟨cs1, ci1⟩ := st1
        obtain rfl : cs1 = some s := hcs
        simp only [run, hre, parse_content, Option.map_some] at h
        injection h with h
        subst h
        exact ⟨rfl, fun hf => Bool.noConfusion hf⟩
theorem resolver_one_shot_witness :
    ((hostStep 4 ⟨none, 0⟩
        (Element.mk "div" [] "" [Element.mk "div" [("class", "admonition note")] "" []])
        ["    x"]).map (fun r => r.state.current_sibling)).getD
      (some (Element.mk "div" [] "" [])) = none := by
  have h := resolver_one_shot 4 ⟨none, 0⟩
    (Element.mk "div" [] "" [Element.mk "div" [("class", "admonition note")] "" []])
    ["    x"] _ rfl rfl
  exact h.1

/-- C5 -/
theorem run_opening_marker (tab : Nat) (st : RState) (parent : Element) (block : String)
    (rest : List String) (out : RunOut) (m : MatchRes)
    (hm : RE_search block = some m) (hpos : 0 < m.start)
    (hr : run tab st parent (block :: rest) = some out) :
    out.parent = Element.mk parent.tag parent.attrs parent.text
      (parent.children ++ [out.target]) ∧
    out.target.tag = "div" ∧
    out.effects = [Effect.parseBlocks (sTake block m.start),
      Effect.parseChunk out.target (detab (sDrop block m.stop) tab).1] ∧
    out.state = st := by
  simp only [run, hm] at hr
  injection hr with hr
  subst hr
  simp [hpos, Element.tag]

/-- C6 -/
theorem run_leftover_tail (tab : Nat) (st : RState) (parent : Element) (block : String)
    (rest : List String) (out : RunOut)
    (hr : run tab st parent (block :: rest) = some out) :
    (∀ m, RE_search block = some m →
      out.blocks = (if (detab (sDrop block m.stop) tab).2 == "" then rest
                    else (detab (sDrop block m.stop) tab).2 :: rest) ∧
      out.effects.getLast? =
        some (Effect.parseChunk out.target (detab (sDrop block m.stop) tab).1)) ∧
    (RE_search block = none →
      out.blocks = (if (parse_content tab st parent block).2.2.2 == "" then rest
                    else (parse_content tab st parent block).2.2.2 :: rest) ∧
      out.effects =
        [Effect.parseChunk out.target (parse_content tab st parent block).2.2.1]) := by
  constructor
  · intro m hm
    simp only [run, hm] at hr
    injection hr with hr
    subst hr
    exact ⟨rfl, List.getLast?_concat _⟩
  · intro hre
    simp only [run, hre] at hr
    cases hs : (parse_content tab st parent block).2.1 with
    | none => rw [hs] at hr; exact Option.noConfusion hr
    | some s =>
      rw [hs] at hr
      injection hr with hr
      subst hr
      exact ⟨rfl, rfl⟩

/-- C7 -/
theorem run_wraps_bare_item (tab : Nat) (st : RState) (parent : Element) (block : String)
    (rest : List String) (out : RunOut) (sib : Element)
    (h0 : st.current_sibling = some sib)
    (hre : RE_search block = none)
    (htag : sib.tag = "li" ∨ sib.tag = "dd")
    (htext : sib.text ≠ "")
    (hr : run tab st parent (block :: rest) = some out) :
    out.target = Element.mk sib.tag sib.attrs ""
      (sib.children ++ [Element.mk "p" [] sib.text []]) ∧
    out.effects = [Effect.parseChunk out.target (detab block st.content_indent).1] ∧
    out.state = ⟨none, 0⟩ := by
  obtain ⟨cs, ci⟩ := st
  obtain rfl : cs = some sib := h0
  have hcond : ((sib.tag == "li" || sib.tag == "dd") && sib.text != "") = true := by
    rcases htag with h | h <;> simp [h, htext]
  simp only [run, hre, parse_content, hcond, if_true] at hr
  injection hr with hr
  subst hr
  exact ⟨rfl, rfl, rfl⟩


theorem run_opening_marker_witness :
    ((run 4 ⟨none, 0⟩ (Element.mk "div" [] "" []) ["pre\n!!! note\n    body"]).map
        (fun o => o.parent)).getD (Element.mk "e" [] "" []) =
      Element.mk "div" [] "" [Element.mk "div" [("class", "admonition note")] ""
        [Element.mk "p" [("class", "admonition-title")] "Note" []]] ∧
    ((run 4 ⟨none, 0⟩ (Element.mk "div" [] "" []) ["pre\n!!! note\n    body"]).map
        (fun o => o.effects)).getD [] =
      [Effect.parseBlocks "pre",
       Effect.parseChunk (Element.mk "div" [("class", "admonition note")] ""
         [Element.mk "p" [("class", "admonition-title")] "Note" []]) "body"] := by
  have h := run_opening_marker 4 ⟨none, 0⟩ (Element.mk "div" [] "" [])
    "pre\n!!! note\n    body" [] _ ⟨3, 13, "note", none⟩ rfl (by decide) rfl
  exact ⟨h.1, h.2.2.1⟩

theorem run_leftover_tail_witness :
    ((run 4 ⟨none, 0⟩ (Element.mk "div" [] "" []) ["!!! note\n    a\ntail"]).map
        (fun o => o.blocks)).getD [] = ["tail"] ∧
    ((run 4 ⟨none, 0⟩ (Element.mk "div" [] "" []) ["!!! note\n    a\ntail"]).map
        (fun o => o.effects.getLast?)).getD none =
      some (Effect.parseChunk (Element.mk "div" [("class", "admonition note")] ""
        [Element.mk "p" [("class", "admonition-title")] "Note" []]) "a") := by
  have h := (run_leftover_tail 4 ⟨none, 0⟩ (Element.mk "div" [] "" [])
    "!!! note\n    a\ntail" [] _ rfl).1 ⟨0, 9, "note", none⟩ rfl
  exact ⟨h.1, h.2⟩

theorem run_wraps_bare_item_witness :
    ((run 4 ⟨some (Element.mk "li" [] "bare" []), 4⟩ (Element.mk "div" [] "" [])
        ["    cont"]).map (fun o => o.target)).getD (Element.mk "e" [] "" []) =
      Element.mk "li" [] "" [Element.mk "p" [] "bare" []] ∧
    ((run 4 ⟨some (Element.mk "li" [] "bare" []), 4⟩ (Element.mk "div" [] "" [])
        ["    cont"]).map (fun o => o.state.current_sibling)).getD
      (some (Element.mk "e" [] "" [])) = none := by
  have h := run_wraps_bare_item 4 ⟨some (Element.mk "li" [] "bare" []), 4⟩
    (Element.mk "div" [] "" []) "    cont" [] _ (Element.mk "li" [] "bare" [])
    rfl rfl (Or.inl rfl) (by decide) rfl
  exact ⟨h.1, rfl⟩

theorem tokensPart_shape {cs g1 rest : List Char}
    (h : tokensPart cs = some (g1, rest)) :
    ∃ c r, g1 = c :: r ∧ isClassChar c = true := by
  unfold tokensPart at h
  cases cs with
  | nil => exact Option.noConfusion h
  | cons c t =>
    by_cases hc : isClassChar c
    · simp only [hc, if_true] at h
      injection h with h
      have hcsp : (c == ' ') = false := by
        cases hceq : c == ' ' with
        | true =>
          have := eq_of_beq hceq
          subst this
          exact absurd hc (by decide)
        | false => rfl
      have hsp : ((c :: t).span (fun x => isClassChar x || x == ' ')).1 =
          c :: (t.span (fun x => isClassChar x || x == ' ')).1 := by
        simp [List.span_eq_take_drop, List.takeWhile_cons, hc]
      have hg1 : g1 = ((c :: (t.span (fun x => isClassChar x || x == ' ')).1).reverse.dropWhile
          (fun x => x == ' ')).reverse := by
        rw [← hsp]
        exact (congrArg (fun x : List Char × List Char => x.1) h).symm
      rw [List.reverse_cons, List.dropWhile_append] at hg1
      by_cases he : (List.dropWhile (fun x => x == ' ')
          (t.span (fun x => isClassChar x || x == ' ')).1.reverse).isEmpty
      · rw [if_pos he] at hg1
        simp only [List.dropWhile_cons, hcsp, Bool.false_eq_true, if_false,
          List.reverse_cons, List.reverse_nil, List.nil_append] at hg1
        exact ⟨c, [], hg1, hc⟩
      · rw [if_neg he, List.reverse_append, List.reverse_cons, List.reverse_nil,
          List.nil_append, List.singleton_append] at hg1
        exact ⟨c, _, hg1, hc⟩
    · simp [hc] at h

theorem bodyCore_group1 {cs2 g1 : List Char} {t : Option (List Char)} {r2 : List Char}
    (h : bodyCore cs2 = some (g1, t, r2)) :
    ∃ c r, g1 = c :: r ∧ isClassChar c = true := by
  unfold bodyCore at h
  cases htk : tokensPart cs2 with
  | none => simp only [htk] at h; exact Option.noConfusion h
  | some p =>
    obtain ⟨g1', rest'⟩ := p
    simp only [htk] at h
    cases hmt : matchTail rest' with
    | none => simp only [hmt] at h; exact Option.noConfusion h
    | some q =>
      obtain ⟨t', r'⟩ := q
      simp only [hmt] at h
      injection h with h
      have hg : g1' = g1 := congrArg (fun x => x.1) h
      subst hg
      exact tokensPart_shape htk


theorem matchBody_group1 {cs g1 : List Char} {t : Option (List Char)} {r2 : List Char}
    (h : matchBody cs = some (g1, t, r2)) :
    ∃ c r, g1 = c :: r ∧ isClassChar c = true := by
  unfold matchBody at h
  split at h
  · split at h
    · next cs2 =>
      cases hgo : bodyCore cs2 with
      | some q =>
        simp only [Option.orElse, hgo] at h
        injection h with h
        subst h
        exact bodyCore_group1 hgo
      | none =>
        simp only [Option.orElse, hgo] at h
        exact bodyCore_group1 h
    · exact bodyCore_group1 h
  · exact Option.noConfusion h

theorem searchFrom_group1 {cs : List Char} {m : MatchRes} :
    ∀ {i total : Nat}, searchFrom cs i total = some m →
      ∃ c r, m.group1.data = c :: r ∧ isClassChar c = true := by
  induction cs with
  | nil => intro i total h; exact Option.noConfusion h
  | cons c rest ih =>
    intro i total h
    unfold searchFrom at h
    by_cases hc : (c == '\n') = true
    · rw [hc] at h
      simp only [if_true] at h
      cases hmb : matchBody rest with
      | some q =>
        obtain ⟨g1, t, r2⟩ := q
        rw [hmb] at h
        injection h with h
        subst h
        exact matchBody_group1 hmb
      | none => rw [hmb] at h; exact ih h
    · rw [Bool.not_eq_true] at hc
      rw [hc] at h
      simp only [Bool.false_eq_true, if_false] at h
      exact ih h

theorem RE_search_group1 {s : String} {m : MatchRes}
    (h : RE_search s = some m) :
    ∃ c r, m.group1.data = c :: r ∧ isClassChar c = true := by
  unfold RE_search at h
  cases hmb : matchBody s.data with
  | some q =>
    obtain ⟨g1, t, r2⟩ := q
    rw [hmb] at h
    injection h with h
    subst h
    exact matchBody_group1 hmb
  | none => rw [hmb] at h; exact searchFrom_group1 h


theorem toLower_beq_space {c : Char} (h : isClassChar c = true) :
    (Char.toLower c == ' ') = false := by
  by_cases hc : 65 ≤ c.toNat ∧ c.toNat ≤ 90
  · obtain ⟨h65, h90⟩ := hc
    rw [← Char.ofNat_toNat c]
    interval_cases h27 : c.toNat <;> decide
  · unfold Char.toLower
    rw [if_neg hc]
    cases hsp : c == ' ' with
    | false => rfl
    | true =>
      have hce : c = ' ' := eq_of_beq hsp
      subst hce
      exact absurd h (by decide)


theorem collapseAux_cons_ne_space {d : List Char} {c : Char} (hc : (c == ' ') = false) :
    collapseAux false (c :: d) = c :: collapseAux false d := by
  simp [collapseAux, hc]

theorem default_title_shape {s : String} {m : MatchRes} (hm : RE_search s = some m) :
    ∃ c r, (get_class_and_title m).1.data = c :: r ∧ (c == ' ') = false := by
  obtain ⟨c, r, hg, hcc⟩ := RE_search_group1 hm
  refine ⟨Char.toLower c, collapseAux false (r.map Char.toLower), ?_, toLower_beq_space hcc⟩
  show (RE_SPACES_sub (lowerStr m.group1)).data = _
  unfold RE_SPACES_sub lowerStr
  rw [hg]
  simp only [List.map_cons]
  exact collapseAux_cons_ne_space (toLower_beq_space hcc)

theorem default_title_ne_empty {s : String} {m : MatchRes} (hm : RE_search s = some m) :
    ((pyCapitalize ⟨(get_class_and_title m).1.data.takeWhile (fun c => c != ' ')⟩ : String)
      == "") = false := by
  obtain ⟨c, r, hg, hcs⟩ := default_title_shape hm
  rw [hg]
  rw [List.takeWhile_cons]
  simp only [bne, hcs, Bool.not_false, if_true]
  unfold pyCapitalize
  simp only
  rw [beq_eq_false_iff_ne]
  intro hcon
  have := congrArg String.data hcon
  simp at this

/-- C3 -/
theorem title_three_way (tab : Nat) (st : RState) (parent : Element) (block : String)
    (rest : List String) (out : RunOut) (m : MatchRes)
    (hm : RE_search block = some m)
    (hr : run tab st parent (block :: rest) = some out) :
    (m.group2 = none →
      (get_class_and_title m).2 =
        some (pyCapitalize ⟨(get_class_and_title m).1.data.takeWhile (fun c => c != ' ')⟩) ∧
      out.target.children = [Element.mk "p" [("class", CLASSNAME_TITLE)]
        (pyCapitalize ⟨(get_class_and_title m).1.data.takeWhile (fun c => c != ' ')⟩) []]) ∧
    (m.group2 = some "" → (get_class_and_title m).2 = none ∧ out.target.children = []) ∧
    (∀ t : String, m.group2 = some t → t ≠ "" →
      (get_class_and_title m).2 = some t ∧
      out.target.children = [Element.mk "p" [("class", CLASSNAME_TITLE)] t []]) := by
  simp only [run, hm] at hr
  injection hr with hr
  subst hr
  refine ⟨?_, ?_, ?_⟩
  · intro hg
    have kt2 : (get_class_and_title m).2 =
        some (pyCapitalize ⟨(get_class_and_title m).1.data.takeWhile (fun c => c != ' ')⟩) := by
      simp [get_class_and_title, hg]
    refine ⟨kt2, ?_⟩
    simp only [Element.children, kt2, default_title_ne_empty hm, Bool.false_eq_true, if_false]
  · intro hg
    have kt2 : (get_class_and_title m).2 = none := by
      simp [get_class_and_title, hg]
    exact ⟨kt2, by simp only [Element.children, kt2]⟩
  · intro t hg ht
    have kt2 : (get_class_and_title m).2 = some t := by
      simp [get_class_and_title, hg, ht]
    refine ⟨kt2, ?_⟩
    have hne : (t == "") = false := beq_eq_false_iff_ne.mpr ht
    simp only [Element.children, kt2, hne, Bool.false_eq_true, if_false]


theorem title_three_way_witness :
    ((run 4 ⟨none, 0⟩ (Element.mk "div" [] "" []) ["!!! note"]).map
        (fun o => o.target.children)).getD [Element.mk "e" [] "" []] =
      [Element.mk "p" [("class", "admonition-title")] "Note" []] ∧
    ((run 4 ⟨none, 0⟩ (Element.mk "div" [] "" []) ["!!! warning \"\""]).map
        (fun o => o.target.children)).getD [Element.mk "e" [] "" []] = [] ∧
    ((run 4 ⟨none, 0⟩ (Element.mk "div" [] "" []) ["!!! custom-type \"My Title\""]).map
        (fun o => o.target.children)).getD [Element.mk "e" [] "" []] =
      [Element.mk "p" [("class", "admonition-title")] "My Title" []] :=
  ⟨((title_three_way 4 ⟨none, 0⟩ (Element.mk "div" [] "" []) "!!! note" [] _
      ⟨0, 8, "note", none⟩ rfl rfl).1 rfl).2,
   ((title_three_way 4 ⟨none, 0⟩ (Element.mk "div" [] "" []) "!!! warning \"\"" [] _
      ⟨0, 14, "warning", some ""⟩ rfl rfl).2.1 rfl).2,
   ((title_three_way 4 ⟨none, 0⟩ (Element.mk "div" [] "" []) "!!! custom-type \"My Title\"" [] _
      ⟨0, 26, "custom-type", some "My Title"⟩ rfl rfl).2.2 "My Title" rfl
      (by decide)).2⟩

theorem spacesStr_data (n : Nat) : (spacesStr n).data = List.replicate n ' ' := rfl

theorem sDrop_data (s : String) (n : Nat) : (sDrop s n).data = s.data.drop n := rfl

theorem sDrop_zero (s : String) : sDrop s 0 = s := rfl

theorem sDrop_sDrop (s : String) (a b : Nat) : sDrop (sDrop s a) b = sDrop s (a + b) := by
  unfold sDrop
  rw [List.drop_drop]

theorem sStartsWith_add {s : String} {a b : Nat}
    (ha : sStartsWith s (spacesStr a) = true)
    (hb : sStartsWith (sDrop s a) (spacesStr b) = true) :
    sStartsWith s (spacesStr (a + b)) = true := by
  rw [sStartsWith, spacesStr_data, List.isPrefixOf_iff_prefix, List.prefix_iff_eq_take,
    List.length_replicate] at ha hb ⊢
  rw [sDrop_data] at hb
  rw [List.take_add, ← ha, List.replicate_add, hb]

theorem descend_arith (tab : Nat) (sibling lc : Element) (block : String) (indent : Nat) :
    ∃ n : Nat,
      (descend tab sibling lc block indent).2.2 = indent + n * tab ∧
      (descend tab sibling lc block indent).2.1 = sDrop block (n * tab) ∧
      (0 < n → sStartsWith block (spacesStr ((n + 1) * tab)) = true) := by
  induction sibling, lc, block, indent using descend.induct tab with
  | case1 sibling lc block indent h1 h2 =>
    rw [descend_none h1 h2]
    refine ⟨1, by simp, by rw [Nat.one_mul], fun _ => ?_⟩
    have := ((Bool.and_eq_true _ _).mp h1).1
    rwa [show (1 + 1) * tab = tab * 2 by ring]
  | case2 sibling lc block indent h1 sib' h2 h3 =>
    rw [descend_stop h1 h2 h3]
    refine ⟨1, by simp, by rw [Nat.one_mul], fun _ => ?_⟩
    have := ((Bool.and_eq_true _ _).mp h1).1
    rwa [show (1 + 1) * tab = tab * 2 by ring]
  | case3 sibling lc block indent h1 sib' h2 lc' h3 ih =>
    rw [descend_step h1 h2 h3]
    obtain ⟨n', hI, hB, hP⟩ := ih
    have h1l := ((Bool.and_eq_true _ _).mp h1).1
    refine ⟨n' + 1, ?_, ?_, fun _ => ?_⟩
    · rw [hI]; ring
    · rw [hB, sDrop_sDrop, show tab + n' * tab = (n' + 1) * tab by ring]
    · rcases Nat.eq_zero_or_pos n' with hz | hpos
      · subst hz
        rwa [show (0 + 1 + 1) * tab = tab * 2 by ring]
      · have hbase : sStartsWith block (spacesStr tab) = true :=
          sStartsWith_mono (by omega) h1l
        have hadd := sStartsWith_add hbase (hP hpos)
        rwa [show (n' + 1 + 1) * tab = tab + (n' + 1) * tab by ring]
  | case4 sibling lc block indent h1 =>
    rw [descend_neg (by rwa [← Bool.not_eq_true])]
    exact ⟨0, by simp, by rw [Nat.zero_mul, sDrop_zero], fun h => absurd h (Nat.lt_irrefl 0)⟩


/-- C1 -/
theorem locator_descent_additive (tab : Nat) (st : RState) (parent : Element)
    (block : String) (st' : RState) (target : Element) (b the_rest : String)
    (h0 : st.current_sibling = none)
    (h : parse_content tab st parent block = (st', (some target, b, the_rest))) :
    ∃ n : Nat, st'.content_indent = (n + 1) * tab ∧
      sStartsWith block (spacesStr ((n + 1) * tab)) = true ∧
      st'.current_sibling = some target := by
  obtain ⟨cs, ci⟩ := st
  obtain rfl : cs = none := h0
  unfold parse_content at h
  cases hlc : lastChild parent with
  | none =>
    simp only [hlc] at h
    have := congrArg (fun x : RState × Option Element × String × String => x.2.1) h
    exact Option.noConfusion this
  | some sib0 =>
    simp only [hlc] at h
    by_cases hct : containsSub (sib0.getAttr "class") CLASSNAME
    · simp only [hct, Bool.not_true, Bool.false_eq_true, if_false] at h
      cases hlc0 : lastChild sib0 with
      | none =>
        simp only [hlc0] at h
        by_cases hss : sStartsWith block (spacesStr tab)
        · simp only [hss, Bool.not_true, Bool.false_eq_true, if_false] at h
          have hst : st' = ⟨some sib0, 0 + tab⟩ :=
            (congrArg (fun x : RState × Option Element × String × String => x.1) h).symm
          have htg : some sib0 = some target :=
            congrArg (fun x : RState × Option Element × String × String => x.2.1) h
          refine ⟨0, ?_, ?_, ?_⟩
          · rw [hst]; show 0 + tab = (0 + 1) * tab; ring
          · rwa [show (0 + 1) * tab = tab by ring]
          · rw [hst]; exact htg
        · simp only [Bool.not_eq_true] at hss
          simp only [hss, Bool.not_false, if_true] at h
          have := congrArg (fun x : RState × Option Element × String × String => x.2.1) h
          exact Option.noConfusion this
      | some lc =>
        simp only [hlc0] at h
        obtain ⟨n, hI, hB, hP⟩ := descend_arith tab sib0 lc block 0
        by_cases hss : sStartsWith (descend tab sib0 lc block 0).2.1 (spacesStr tab)
        · cases hr1 : (descend tab sib0 lc block 0).1 with
          | none =>
            simp only [hss, Bool.not_true, Bool.false_eq_true, if_false, hr1] at h
            have := congrArg (fun x : RState × Option Element × String × String => x.2.1) h
            exact Option.noConfusion this
          | some s =>
            simp only [hss, Bool.not_true, Bool.false_eq_true, if_false, hr1] at h
            have hst : st' = ⟨some s, (descend tab sib0 lc block 0).2.2 + tab⟩ :=
              (congrArg (fun x : RState × Option Element × String × String => x.1) h).symm
            have htg : some s = some target :=
              congrArg (fun x : RState × Option Element × String × String => x.2.1) h
            refine ⟨n, ?_, ?_, ?_⟩
            · rw [hst]
              show (descend tab sib0 lc block 0).2.2 + tab = (n + 1) * tab
              rw [hI]; ring
            · rcases Nat.eq_zero_or_pos n with hz | hpos
              · subst hz
                rw [hB, Nat.zero_mul, sDrop_zero] at hss
                rwa [show (0 + 1) * tab = tab by ring]
              · exact hP hpos
            · rw [hst]; exact htg
        · simp only [Bool.not_eq_true] at hss
          simp only [hss, Bool.not_false, if_true] at h
          have := congrArg (fun x : RState × Option Element × String × String => x.2.1) h
          exact Option.noConfusion this
    · simp only [Bool.not_eq_true] at hct
      simp only [hct, Bool.not_false, if_true] at h
      have := congrArg (fun x : RState × Option Element × String × String => x.2.1) h
      exact Option.noConfusion this


theorem parse_content_resolve {tab ci : Nat} {parent sib0 lc : Element} {block : String}
    {r : Option Element × String × Nat} {s : Element}
    (hlc : lastChild parent = some sib0)
    (hct : containsSub (sib0.getAttr "class") CLASSNAME = true)
    (hlc0 : lastChild sib0 = some lc)
    (hd : descend tab sib0 lc block 0 = r)
    (hr1 : r.1 = some s)
    (hss : sStartsWith r.2.1 (spacesStr tab) = true) :
    parse_content tab ⟨none, ci⟩ parent block =
      (⟨some s, r.2.2 + tab⟩,
       (some s, (detab block (r.2.2 + tab)).1, (detab block (r.2.2 + tab)).2)) := by
  unfold parse_content
  simp only [hlc, hct, hlc0, hd, hss, Bool.not_true, Bool.false_eq_true, if_false, hr1]

theorem locator_descent_additive_witness :
    ∃ n : Nat,
      (parse_content 4 ⟨none, 0⟩
        (Element.mk "div" [] "" [Element.mk "div" [("class", "admonition note")] ""
          [Element.mk "ul" [] "" [Element.mk "li" [] ""
            [Element.mk "p" [] "item1" [],
             Element.mk "ul" [] "" [Element.mk "li" [] "item2" []]]]]])
        "            deep").1.content_indent = (n + 1) * 4 ∧
      sStartsWith "            deep" (spacesStr ((n + 1) * 4)) = true ∧
      (parse_content 4 ⟨none, 0⟩
        (Element.mk "div" [] "" [Element.mk "div" [("class", "admonition note")] ""
          [Element.mk "ul" [] "" [Element.mk "li" [] ""
            [Element.mk "p" [] "item1" [],
             Element.mk "ul" [] "" [Element.mk "li" [] "item2" []]]]]])
        "            deep").1.current_sibling = some (Element.mk "li" [] "item2" []) := by
  have hd1 : descend 4
      (Element.mk "div" [("class", "admonition note")] ""
        [Element.mk "ul" [] "" [Element.mk "li" [] ""
          [Element.mk "p" [] "item1" [],
           Element.mk "ul" [] "" [Element.mk "li" [] "item2" []]]]])
      (Element.mk "ul" [] "" [Element.mk "li" [] ""
        [Element.mk "p" [] "item1" [],
         Element.mk "ul" [] "" [Element.mk "li" [] "item2" []]]])
      "            deep" 0 =
      descend 4
        (Element.mk "li" [] "" [Element.mk "p" [] "item1" [],
          Element.mk "ul" [] "" [Element.mk "li" [] "item2" []]])
        (Element.mk "ul" [] "" [Element.mk "li" [] "item2" []])
        (sDrop "            deep" 4) (0 + 4) :=
    descend_step (by decide) rfl rfl
  have hd2 : descend 4
      (Element.mk "li" [] "" [Element.mk "p" [] "item1" [],
        Element.mk "ul" [] "" [Element.mk "li" [] "item2" []]])
      (Element.mk "ul" [] "" [Element.mk "li" [] "item2" []])
      (sDrop "            deep" 4) (0 + 4) =
      (some (Element.mk "li" [] "item2" []), sDrop (sDrop "            deep" 4) 4,
        (0 + 4) + 4) :=
    descend_stop (by decide) rfl rfl
  have hd := hd1.trans hd2
  have hpc : parse_content 4 ⟨none, 0⟩
      (Element.mk "div" [] "" [Element.mk "div" [("class", "admonition note")] ""
        [Element.mk "ul" [] "" [Element.mk "li" [] ""
          [Element.mk "p" [] "item1" [],
           Element.mk "ul" [] "" [Element.mk "li" [] "item2" []]]]]])
      "            deep" =
      (⟨some (Element.mk "li" [] "item2" []), ((0 + 4) + 4) + 4⟩,
       (some (Element.mk "li" [] "item2" []),
        (detab "            deep" (((0 + 4) + 4) + 4)).1,
        (detab "            deep" (((0 + 4) + 4) + 4)).2)) :=
    parse_content_resolve
      (show lastChild (Element.mk "div" [] "" [Element.mk "div" [("class", "admonition note")] ""
        [Element.mk "ul" [] "" [Element.mk "li" [] ""
          [Element.mk "p" [] "item1" [],
           Element.mk "ul" [] "" [Element.mk "li" [] "item2" []]]]]]) =
        some (Element.mk "div" [("class", "admonition note")] ""
        [Element.mk "ul" [] "" [Element.mk "li" [] ""
          [Element.mk "p" [] "item1" [],
           Element.mk "ul" [] "" [Element.mk "li" [] "item2" []]]]]) from rfl)
      (by decide)
      (show lastChild (Element.mk "div" [("class", "admonition note")] ""
        [Element.mk "ul" [] "" [Element.mk "li" [] ""
          [Element.mk "p" [] "item1" [],
           Element.mk "ul" [] "" [Element.mk "li" [] "item2" []]]]]) =
        some (Element.mk "ul" [] "" [Element.mk "li" [] ""
        [Element.mk "p" [] "item1" [],
         Element.mk "ul" [] "" [Element.mk "li" [] "item2" []]]]) from rfl)
      hd rfl (by decide)
  rw [hpc]
  exact locator_descent_additive 4 ⟨none, 0⟩ _ "            deep" _ _ _ _ rfl hpc

end Admonition
